import Mathlib

/-!
Formal model of the CodexGlyph v2.6 engine (`codexglyph_v26_full.py`).

Strings are modelled as `List Char` (`Str`); Python's `str.upper`/`lower`
and the character predicates are modelled per character with Lean's ASCII
`Char` operations.  Python dictionaries are modelled as association lists
in insertion order, so that first-match iteration over a dict is a
`find?`/`findSome?` over the list.  The two spots of the source that index
into a possibly-empty list (`alternatives[0]` and `parts_with_meaning[0]`)
are modelled with `head?`, so `parse_word` returns an `Option` and a
`none` result corresponds to a Python `IndexError`; totality of the
pipeline is then a theorem, not an assumption.  Loops whose termination
is not structural (the digit-sum reduction and the tokenizer scan) are
written with an explicit fuel argument that provably dominates the number
of iterations; `reduceRes_eq` recovers the defining equation of the
source's `while` loop.
-/

namespace CodexGlyph

/-- Python strings, modelled as lists of characters. -/
abbrev Str := List Char

/-- The apostrophe character (spelled by code to keep source files ASCII-clean). -/
def apos : Char := Char.ofNat 39

/-- Python's `str.strip()` (default whitespace stripping). -/
def strip (w : Str) : Str :=
  ((w.dropWhile Char.isWhitespace).reverse.dropWhile Char.isWhitespace).reverse

/-- Insert a string into a list so that longer strings come first
(used to model `sorted(keys, key=len, reverse=True)`). -/
def insertByLen (s : Str) : List Str → List Str
  | [] => [s]
  | t :: ts => if t.length ≤ s.length then s :: t :: ts else t :: insertByLen s ts

/-- Sort a list of strings by length, longest first
(Python's `sorted(..., key=len, reverse=True)`; among equal lengths the
order is irrelevant to the parser, since two distinct strings of equal
length cannot both be a prefix, or both a suffix, of the same word). -/
def sortLenDesc (l : List Str) : List Str := l.foldr insertByLen []

/-- Digits of a natural number, least significant first, with fuel.
Fuel `n` suffices for the number `n` itself since a positive number has
at most as many digits as its value. -/
def digitsAuxF : Nat → Nat → List Nat
  | 0, _ => []
  | _ + 1, 0 => []
  | f + 1, n + 1 => ((n + 1) % 10) :: digitsAuxF f ((n + 1) / 10)

/-- Python's `sum(int(d) for d in str(n))`. -/
def digitSum (n : Nat) : Nat := (digitsAuxF n n).sum

/-- First-occurrence deduplication, used to model iteration over a Python
`set` built from a list (CPython's set iteration order is unspecified;
first-occurrence order is fixed here as the model's choice). -/
def dedupFirst (l : List Str) : List Str :=
  l.foldl (fun acc x => if acc.contains x then acc else acc ++ [x]) []

/-- Option-valued map over a list; `none` as soon as `f` fails, mirroring
a Python loop in which an exception would propagate. -/
def mapMO (f : α → Option β) : List α → Option (List β)
  | [] => some []
  | x :: xs =>
    match f x, mapMO f xs with
    | some y, some ys => some (y :: ys)
    | _, _ => none

/-! ### Lexical tables (transcribed from the source; insertion order kept) -/

def TAP_ROOT : List (Char × Nat × Str) := [
  ('A', 1, "Initiation·Spark".data),
  ('B', 2, "Duality·Choice".data),
  ('C', 3, "Creation·Flow".data),
  ('D', 4, "Structure·Stability".data),
  ('E', 5, "Freedom·Change".data),
  ('F', 6, "Harmony·SacredGeometry".data),
  ('G', 7, "Mystery·Introspection".data),
  ('H', 8, "Power·Infinity".data),
  ('I', 9, "Completion·Wisdom".data),
  ('J', 10, "RenewedInitiation".data),
  ('K', 11, "MasterDuality·Gateway".data),
  ('L', 12, "IlluminatedCreation".data),
  ('M', 13, "ManifestedStructure".data),
  ('N', 14, "NetworkedFreedom".data),
  ('O', 15, "WholeHarmony·Orb".data),
  ('P', 16, "PulsedMystery".data),
  ('Q', 17, "QuantumPower".data),
  ('R', 18, "RitualCompletion".data),
  ('S', 19, "SpiraledInitiation".data),
  ('T', 20, "TrialOfDuality".data),
  ('U', 21, "UnifiedCreation".data),
  ('V', 22, "MasterStructure".data),
  ('W', 23, "WovenFreedom".data),
  ('X', 24, "CrossedHarmony".data),
  ('Y', 25, "ForkedMystery".data),
  ('Z', 26, "ZeroedPower·Zenith".data)
]

def MASTER_NUMBERS : List (Nat × Str) := [
  (11, "Gateway·Luminator".data),
  (22, "MasterBuilder".data),
  (33, "MasterTeacher·Healer".data),
  (44, "MasterFoundation".data),
  (55, "MasterChange·Freedom".data),
  (66, "MasterNurturer·Harmonizer".data),
  (77, "MasterMystic·Seeker".data),
  (88, "MasterManifestor·Abundance".data),
  (99, "MasterHumanitarian·Completion".data)
]

def VCC_PREFIXES : List (Str × List (Str × Str)) := [
  ("IN".data, [("meaning".data, "into/within".data), ("type".data, "positional".data), ("etymology".data, "Latin in-".data)]),
  ("EX".data, [("meaning".data, "out/from".data), ("type".data, "positional".data), ("etymology".data, "Latin ex-".data)]),
  ("AT".data, [("meaning".data, "at/toward".data), ("type".data, "positional".data), ("etymology".data, "Latin ad-variant".data)]),
  ("OB".data, [("meaning".data, "against/opposite".data), ("type".data, "positional".data), ("etymology".data, "Latin ob-".data)]),
  ("OP".data, [("meaning".data, "against/toward".data), ("type".data, "positional".data), ("etymology".data, "Latin ob-variant".data)]),
  ("AD".data, [("meaning".data, "toward/to".data), ("type".data, "positional".data), ("etymology".data, "Latin ad-".data)]),
  ("AB".data, [("meaning".data, "away from".data), ("type".data, "positional".data), ("etymology".data, "Latin ab-".data)]),
  ("IM".data, [("meaning".data, "into".data), ("type".data, "positional".data), ("etymology".data, "Latin in-assimilated".data)]),
  ("IL".data, [("meaning".data, "into".data), ("type".data, "positional".data), ("etymology".data, "Latin in-assimilated".data)]),
  ("IR".data, [("meaning".data, "into".data), ("type".data, "positional".data), ("etymology".data, "Latin in-assimilated".data)]),
  ("IF".data, [("meaning".data, "into".data), ("type".data, "positional".data), ("etymology".data, "Latin in-assimilated".data)]),
  ("UN".data, [("meaning".data, "liberation/reversal".data), ("type".data, "operational".data), ("etymology".data, "Old English un-".data)])
]

def OTHER_PREFIXES : List (Str × List (Str × Str)) := [
  ("RE".data, [("meaning".data, "again/back/renewal".data), ("etymology".data, "Latin re-".data)]),
  ("BE".data, [("meaning".data, "causative/make".data), ("etymology".data, "Old English be-".data)]),
  ("DE".data, [("meaning".data, "removal/down".data), ("etymology".data, "Latin de-".data)]),
  ("BI".data, [("meaning".data, "by/at/near".data), ("etymology".data, "Old English bi".data)]),
  ("UNDER".data, [("meaning".data, "beneath (UN+D+ER)".data), ("etymology".data, "Old English".data)]),
  ("OVER".data, [("meaning".data, "above (O+V+ER)".data), ("etymology".data, "Old English".data)]),
  ("CON".data, [("meaning".data, "together/with".data), ("etymology".data, "Latin con-".data)]),
  ("COM".data, [("meaning".data, "together/with".data), ("etymology".data, "Latin con-variant".data)]),
  ("SUB".data, [("meaning".data, "under/below".data), ("etymology".data, "Latin sub-".data)]),
  ("SUP".data, [("meaning".data, "under".data), ("etymology".data, "Latin sub-assimilated".data)]),
  ("PRE".data, [("meaning".data, "before/prior".data), ("etymology".data, "Latin prae-".data)]),
  ("PRO".data, [("meaning".data, "forward/forth".data), ("etymology".data, "Latin pro-".data)]),
  ("POST".data, [("meaning".data, "after/behind".data), ("etymology".data, "Latin post-".data)]),
  ("ANTI".data, [("meaning".data, "against/opposite".data), ("etymology".data, "Greek anti-".data)]),
  ("COUNTER".data, [("meaning".data, "against/opposite".data), ("etymology".data, "Latin contra-".data)]),
  ("SUPER".data, [("meaning".data, "above/beyond".data), ("etymology".data, "Latin super-".data)]),
  ("INTER".data, [("meaning".data, "between/among".data), ("etymology".data, "Latin inter-".data)]),
  ("TRANS".data, [("meaning".data, "across/through".data), ("etymology".data, "Latin trans-".data)]),
  ("CIRCUM".data, [("meaning".data, "around".data), ("etymology".data, "Latin circum-".data)]),
  ("PER".data, [("meaning".data, "through/thoroughly".data), ("etymology".data, "Latin per-".data)]),
  ("EXTRA".data, [("meaning".data, "outside/beyond".data), ("etymology".data, "Latin extra-".data)]),
  ("INTRA".data, [("meaning".data, "within".data), ("etymology".data, "Latin intra-".data)]),
  ("WITH".data, [("meaning".data, "together/against".data), ("etymology".data, "Old English".data)]),
  ("OUT".data, [("meaning".data, "beyond/external".data), ("etymology".data, "Old English".data)]),
  ("DOWN".data, [("meaning".data, "downward".data), ("etymology".data, "Old English".data)]),
  ("UP".data, [("meaning".data, "upward".data), ("etymology".data, "Old English".data)]),
  ("FOR".data, [("meaning".data, "away/prohibition".data), ("etymology".data, "Old English".data)]),
  ("FORE".data, [("meaning".data, "before/front".data), ("etymology".data, "Old English".data)]),
  ("AFTER".data, [("meaning".data, "following".data), ("etymology".data, "Old English".data)]),
  ("MID".data, [("meaning".data, "middle".data), ("etymology".data, "Old English".data)]),
  ("DIS".data, [("meaning".data, "apart/away".data), ("etymology".data, "Latin dis-".data)]),
  ("EN".data, [("meaning".data, "cause to be in".data), ("etymology".data, "Latin en-".data)]),
  ("EM".data, [("meaning".data, "cause to be in".data), ("etymology".data, "Latin en-variant".data)]),
  ("NON".data, [("meaning".data, "not/without".data), ("etymology".data, "Latin non-".data)]),
  ("MIS".data, [("meaning".data, "wrong/bad".data), ("etymology".data, "Old English".data)]),
  ("MAL".data, [("meaning".data, "bad/evil".data), ("etymology".data, "Latin male-".data)]),
  ("HYPER".data, [("meaning".data, "over/excessive".data), ("etymology".data, "Greek hyper-".data)]),
  ("HYPO".data, [("meaning".data, "under/below".data), ("etymology".data, "Greek hypo-".data)]),
  ("META".data, [("meaning".data, "beyond/change".data), ("etymology".data, "Greek meta-".data)]),
  ("PARA".data, [("meaning".data, "beside/beyond".data), ("etymology".data, "Greek para-".data)]),
  ("PROTO".data, [("meaning".data, "first/original".data), ("etymology".data, "Greek protos-".data)]),
  ("SYN".data, [("meaning".data, "together".data), ("etymology".data, "Greek syn-".data)]),
  ("SYM".data, [("meaning".data, "together".data), ("etymology".data, "Greek syn-variant".data)]),
  ("NEO".data, [("meaning".data, "new".data), ("etymology".data, "Greek neos-".data)]),
  ("PALEO".data, [("meaning".data, "old/ancient".data), ("etymology".data, "Greek palaios-".data)]),
  ("AUTO".data, [("meaning".data, "self".data), ("etymology".data, "Greek autos-".data)]),
  ("MONO".data, [("meaning".data, "one/single".data), ("etymology".data, "Greek monos-".data)]),
  ("UNI".data, [("meaning".data, "one/single".data), ("etymology".data, "Latin unus-".data)]),
  ("MULTI".data, [("meaning".data, "many".data), ("etymology".data, "Latin multus-".data)]),
  ("POLY".data, [("meaning".data, "many".data), ("etymology".data, "Greek polys-".data)]),
  ("SEMI".data, [("meaning".data, "half".data), ("etymology".data, "Latin semi-".data)]),
  ("OMNI".data, [("meaning".data, "all".data), ("etymology".data, "Latin omnis-".data)]),
  ("DIA".data, [("meaning".data, "through/across".data), ("etymology".data, "Greek dia-".data)]),
  ("EPI".data, [("meaning".data, "upon/over".data), ("etymology".data, "Greek epi-".data)]),
  ("AMPHI".data, [("meaning".data, "both/around".data), ("etymology".data, "Greek amphi-".data)]),
  ("PERI".data, [("meaning".data, "around/near".data), ("etymology".data, "Greek peri-".data)]),
  ("E".data, [("meaning".data, "out".data), ("etymology".data, "Latin ex-variant".data)]),
  ("A".data, [("meaning".data, "to/toward or not".data), ("etymology".data, "Latin ad-/Greek a-".data)])
]

def FULL_WORD_SUFFIXES : List (Str × List (Str × Str)) := [
  ("MENT".data, [("meaning".data, "the mind".data), ("etymology".data, "Latin mente".data), ("note".data, "mental operation".data)]),
  ("HOOD".data, [("meaning".data, "territory/covering".data), ("etymology".data, "Old English".data), ("note".data, "protected domain".data)]),
  ("SHIP".data, [("meaning".data, "vessel/journey".data), ("etymology".data, "Old English".data), ("note".data, "carrying relationship".data)]),
  ("DOM".data, [("meaning".data, "dominion/rule".data), ("etymology".data, "Old English".data), ("note".data, "territory of power".data)]),
  ("NESS".data, [("meaning".data, "projection/manifestation".data), ("etymology".data, "Old English/Norse".data), ("note".data, "state extended into form".data)]),
  ("ABLE".data, [("meaning".data, "ability/capable".data), ("etymology".data, "Latin habilis".data), ("note".data, "potential state".data)]),
  ("IBLE".data, [("meaning".data, "is-ability".data), ("etymology".data, "Latin".data), ("note".data, "current ability state (IS+ABLE)".data)]),
  ("FUL".data, [("meaning".data, "full of".data), ("etymology".data, "Old English full".data), ("note".data, "filled with quality".data)]),
  ("LESS".data, [("meaning".data, "without/lacking".data), ("etymology".data, "Old English leas".data), ("note".data, "absence of quality".data)])
]

def STANCE_SUFFIXES : List (Str × List (Str × Str)) := [
  ("ISH".data, [("meaning".data, "positioned toward".data), ("note".data, "tending toward quality".data)]),
  ("IST".data, [("meaning".data, "practitioner/believer".data), ("note".data, "one who takes position".data)]),
  ("ISM".data, [("meaning".data, "system/doctrine".data), ("note".data, "the position as doctrine".data)]),
  ("Y".data, [("meaning".data, "positioned in".data), ("note".data, "located within quality".data)])
]

def COMMON_ROOTS : List (Str × List (Str × Str)) := [
  ("JECT".data, [("meaning".data, "throw/cast".data), ("etymology".data, "Latin iacere".data)]),
  ("TENT".data, [("meaning".data, "stretch/aim".data), ("etymology".data, "Latin tendere".data)]),
  ("TION".data, [("meaning".data, "tension/stretching".data), ("etymology".data, "Latin tensio".data)]),
  ("TENTION".data, [("meaning".data, "stretching state".data), ("etymology".data, "Latin tensio".data)]),
  ("PRESS".data, [("meaning".data, "press/push".data), ("etymology".data, "Latin premere".data)]),
  ("CESS".data, [("meaning".data, "go/yield/proceed".data), ("etymology".data, "Latin cedere".data)]),
  ("CEDE".data, [("meaning".data, "go/yield".data), ("etymology".data, "Latin cedere".data)]),
  ("CEIVE".data, [("meaning".data, "take/receive".data), ("etymology".data, "Latin capere".data)]),
  ("CEPT".data, [("meaning".data, "take/seize".data), ("etymology".data, "Latin capere".data)]),
  ("GRESS".data, [("meaning".data, "step/walk".data), ("etymology".data, "Latin gradi".data)]),
  ("SERV".data, [("meaning".data, "serve/watch/keep".data), ("etymology".data, "Latin servare".data)]),
  ("FORM".data, [("meaning".data, "shape/structure".data), ("etymology".data, "Latin forma".data)]),
  ("PORT".data, [("meaning".data, "carry".data), ("etymology".data, "Latin portare".data)]),
  ("VANCE".data, [("meaning".data, "advance/move".data), ("etymology".data, "Latin".data)]),
  ("PERI".data, [("meaning".data, "try/test".data), ("etymology".data, "Latin periri".data)]),
  ("FIRM".data, [("meaning".data, "strong/fixed".data), ("etymology".data, "Latin firmus".data)])
]

def TRUE_OPERATORS : List Str := ["ER".data, "ING".data, "ED".data, "TION".data, "ION".data, "SION".data, "AL".data, "LY".data, "ES".data, "S".data, "EST".data, "AGE".data, "ANCE".data, "ENCE".data, "ANT".data, "ENT".data, "ARY".data, "ORY".data, "ATE".data, "EE".data, "ETTE".data, "URE".data, "TH".data, "TRY".data, "IC".data, "ICAL".data, "ILE".data, "INE".data, "OID".data, "OSE".data, "OUS".data, "WARD".data, "EN".data, "FY".data, "IFY".data, "IZE".data, "ISE".data, "ATIVE".data, "ITION".data]

def GREEK_ROOTS : List (Str × Str) := [
  ("BIO".data, "life".data),
  ("PSYCH".data, "mind/soul".data),
  ("GE".data, "earth".data),
  ("GEO".data, "earth".data),
  ("THE".data, "god".data),
  ("THEO".data, "god".data),
  ("PHOTO".data, "light".data),
  ("DEMO".data, "people".data),
  ("MON".data, "one".data),
  ("MONO".data, "one".data),
  ("ARISTO".data, "best".data),
  ("BUREAU".data, "desk".data),
  ("TELE".data, "far".data),
  ("PHON".data, "sound".data)
]

def GREEK_SUFFIXES : List (Str × Str) := [
  ("LOGY".data, "study".data),
  ("GRAPHY".data, "writing".data),
  ("ARCHY".data, "rule".data),
  ("CRACY".data, "power/rule".data),
  ("OLOGY".data, "study".data)
]

def SEMANTIC_SHADOWS : List (Str × Str) := [
  ("government".data, "govern-ment [govern the mind]".data),
  ("information".data, "in-formation [forming within/control]".data),
  ("representative".data, "re-present-ative [false re-presentation]".data)
]

def TECHNICAL_FIELDS : List (Str × List Str) := [
  ("mathematics".data, ["addition".data, "subtraction".data, "equation".data, "integer".data]),
  ("medicine".data, ["infection".data, "injection".data, "affliction".data, "prescription".data, "observation".data]),
  ("law".data, ["objection".data, "injunction".data, "affidavit".data, "indictment".data]),
  ("science".data, ["observation".data, "experiment".data, "hypothesis".data, "analysis".data]),
  ("technology".data, ["application".data, "interface".data, "algorithm".data, "instruction".data])
]

/-- `{**VCC_PREFIXES, **OTHER_PREFIXES}` (the key sets are disjoint). -/
def all_prefixes : List (Str × List (Str × Str)) := VCC_PREFIXES ++ OTHER_PREFIXES

/-- `sorted(all_prefixes.keys(), key=len, reverse=True)`. -/
def prefix_order : List Str := sortLenDesc (all_prefixes.map Prod.fst)


/-! ### Enumerations and analysis records -/

/-- `ParsingLevel` enum from the source. -/
inductive ParsingLevel
  | CASUAL
  | STRUCTURAL
  | CEREMONIAL
  | EDUCATIONAL
deriving DecidableEq, Repr

/-- `StrictnessLevel` enum from the source. -/
inductive StrictnessLevel
  | PERMISSIVE
  | STANDARD
  | RIGOROUS
deriving DecidableEq, Repr

/-- `ShadowType` enum from the source. -/
inductive ShadowType
  | STRUCTURAL
  | SEMANTIC
  | BOTH
deriving DecidableEq, Repr

/-- A component-details entry: Python's `{'type': ..., 'text': ..., 'info': ...}`. -/
structure ComponentDetail where
  ctype : Str
  text : Str
  info : List (Str × Str)
deriving DecidableEq, Repr

/-- The `GlyphAnalysis` dataclass. -/
structure GlyphAnalysis where
  original : Str
  parsed : Str
  polarity : Str
  resonance : Str
  is_shadow : Bool
  shadow_types : List ShadowType
  components : List ComponentDetail
  warnings : List Str
  alternatives : List Str
  tier : Option Nat := none
  field_context : Option Str := none
  educational_note : Option Str := none
deriving DecidableEq, Repr

/-- Parser configuration: the four constructor arguments of `CodexGlyphParser`. -/
structure Parser where
  level : ParsingLevel
  strictness : StrictnessLevel
  flag_semantic : Bool
  show_alternatives : Bool
deriving DecidableEq, Repr

/-- The default parser configuration of `CodexGlyphParser.__init__`. -/
def defaultParser : Parser :=
  ⟨ParsingLevel.STRUCTURAL, StrictnessLevel.STANDARD, true, true⟩

/-! ### Resonance calculation (`calculate_resonance`) -/

/-- Value of a letter in the Tap-Root chart: `TAP_ROOT.get(c, (0, ""))[0]`. -/
def tapValue (c : Char) : Nat :=
  match TAP_ROOT.findSome? (fun e => if e.1 = c then some e.2.1 else none) with
  | some v => v
  | none => 0

/-- Membership in the master-number table. -/
def isMaster (n : Nat) : Bool := (MASTER_NUMBERS.lookup n).isSome

/-- One-step-per-fuel digit-sum reduction loop.  The loop body is exactly
`while reduced > 9 and reduced not in MASTER_NUMBERS: reduced = digitSum reduced`;
fuel `n` dominates the iteration count because `digitSum` strictly
decreases above 9 (`digitSum_lt`, proved below). -/
def reduceAux : Nat → Nat → Nat
  | 0, n => n
  | f + 1, n => if 9 < n ∧ isMaster n = false then reduceAux f (digitSum n) else n

/-- The source's reduction loop. -/
def reduceRes (n : Nat) : Nat := reduceAux n n

/-- The cleaned letter sequence of `calculate_resonance`:
`''.join(c for c in word.upper() if c.isalpha())`. -/
def resClean (word : Str) : Str := (word.map Char.toUpper).filter Char.isAlpha

/-- The raw per-letter total of `calculate_resonance`. -/
def rawTotal (word : Str) : Nat := ((resClean word).map tapValue).sum

/-- Render of an optional master-number label: `f" ({label})"` when present. -/
def masterTag (n : Nat) : Str :=
  match MASTER_NUMBERS.lookup n with
  | some lbl => ' ' :: '(' :: (lbl ++ [')'])
  | none => []

/-- `calculate_resonance` from the source. -/
def calculate_resonance (word : Str) : Str :=
  let total := rawTotal word
  let reduced := reduceRes total
  if total = reduced then
    Nat.toDigits 10 total ++ masterTag total
  else
    Nat.toDigits 10 total ++ '→' :: (Nat.toDigits 10 reduced ++ masterTag reduced)

/-! ### V+CC detection (`detect_vcc`) -/

/-- `detect_vcc`: first VCC-capable prefix that starts the word and is
followed by an alphabetic consonant; the second component is the
separator kind (`"tilde"` for positional, `"hyphen"` for operational).
A `none` result is the source's `(False, None, None)`. -/
def detect_vcc (word : Str) : Option (Str × Str) :=
  VCC_PREFIXES.findSome? fun e =>
    if decide (e.1 <+: word.map Char.toUpper) &&
        decide (e.1.length < (word.map Char.toUpper).length) then
      match (word.map Char.toUpper).drop e.1.length with
      | c :: _ =>
        if c.isAlpha && !(c ∈ ['A', 'E', 'I', 'O', 'U']) then
          if e.2.lookup ("type".data) = some ("positional".data) then
            some (e.1, "tilde".data)
          else
            some (e.1, "hyphen".data)
        else none
      | [] => none
    else none

/-! ### Component extraction (`extract_components`) -/

/-- Result record of `extract_components` (the source's `prefix` key is
called `pre` here because `prefix` is a reserved word in Lean). -/
structure Components where
  pre : Option Str
  base : Str
  suffix : Option Str
deriving DecidableEq, Repr

/-- The prefix scan of `extract_components`: first entry of `prefix_order`
that starts the word and leaves a nonempty residue. -/
def findPre (wu : Str) : Option Str :=
  prefix_order.find? fun p => decide (p <+: wu) && decide (p.length < wu.length)

/-- One suffix pass of `extract_components` over a (length-sorted) table. -/
def findSuf (tbl : List Str) (base : Str) : Option Str :=
  tbl.find? fun s => decide (s <:+ base) && decide (s.length < base.length)

/-- The three length-sorted suffix pools, in priority order. -/
def fullOrder : List Str := sortLenDesc (FULL_WORD_SUFFIXES.map Prod.fst)

/-- Length-sorted stance suffixes. -/
def stanceOrder : List Str := sortLenDesc (STANCE_SUFFIXES.map Prod.fst)

/-- Length-sorted grammatical operators. -/
def operOrder : List Str := sortLenDesc TRUE_OPERATORS

/-- The three suffix passes of `extract_components`, in priority order
(full-word, then stance, then operators); each pass only runs when the
previous ones found nothing. -/
def sufChain (base : Str) : Option Str :=
  findSuf fullOrder base <|> findSuf stanceOrder base <|> findSuf operOrder base

/-- `extract_components` from the source. -/
def extract_components (word : Str) : Components :=
  let wu := word.map Char.toUpper
  let p? := findPre wu
  let base1 := match p? with
    | some p => wu.drop p.length
    | none => wu
  let s? := sufChain base1
  let base2 := match s? with
    | some s => base1.take (base1.length - s.length)
    | none => base1
  ⟨p?, base2, s?⟩

/-! ### Greek compound handling -/

/-- `is_greek_compound` from the source: the inner loop tests each Greek
suffix for substring membership in the WHOLE uppercased word. -/
def is_greek_compound (word : Str) : Bool :=
  let wu := word.map Char.toUpper
  GREEK_ROOTS.any fun rp =>
    decide (rp.1 <+: wu) && GREEK_SUFFIXES.any fun sp => decide (sp.1 <:+: wu)

/-- The Greek-compound condition as §4.4 of the specification words it:
the word starts with some Greek root AND some Greek suffix occurs as a
substring of the remainder after that root.  Used only to compare the
specification against `is_greek_compound`. -/
def greek_spec (word : Str) : Bool :=
  let wu := word.map Char.toUpper
  GREEK_ROOTS.any fun rp =>
    decide (rp.1 <+: wu) &&
      GREEK_SUFFIXES.any fun sp => decide (sp.1 <:+: wu.drop rp.1.length)

/-- `parse_greek` from the source. -/
def parse_greek (word : Str) : Str :=
  let wu := word.map Char.toUpper
  let cracy :=
    if decide (("CRACY".data) <:+: wu) then
      (GREEK_ROOTS.find? fun rp => decide (rp.1 <+: wu)).map
        (fun rp => rp.1 ++ "~CRA-CY".data)
    else none
  match cracy with
  | some res => res
  | none =>
    match GREEK_ROOTS.findSome? (fun rp =>
        if decide (rp.1 <+: wu) && (GREEK_SUFFIXES.lookup (wu.drop rp.1.length)).isSome then
          some (rp.1 ++ '~' :: wu.drop rp.1.length)
        else none) with
    | some res => res
    | none => wu


/-! ### Word analysis (`parse_word`), split into the per-field pure
functions that the orchestrator combines (§9 of the spec recommends this
decomposition; each function mirrors the corresponding straight-line
block of the source). -/

/-- The character filter of `parse_word`:
`c.isalnum() or c in "-_~'"`. -/
def isCleanChar (c : Char) : Bool :=
  c.isAlphanum || c = '-' || c = '_' || c = '~' || c = apos

/-- `word_clean` of `parse_word` (the input is first `strip`ped). -/
def cleanOf (word : Str) : Str := (strip word).filter isCleanChar

/-- Step 3 hit: semantic flagging enabled and the lowercased cleaned word
is a key of the semantic-shadow table. -/
def semHit (P : Parser) (wc : Str) : Bool :=
  P.flag_semantic && (SEMANTIC_SHADOWS.lookup (wc.map Char.toLower)).isSome

/-- The `is_shadow` flag after steps 3 and 4. -/
def isShadowOf (P : Parser) (wc : Str) : Bool :=
  semHit P wc || (detect_vcc wc).isSome

/-- The `shadow_types` list after steps 3 and 4 (semantic appended first). -/
def shadowTypesOf (P : Parser) (wc : Str) : List ShadowType :=
  (if semHit P wc then [ShadowType.SEMANTIC] else []) ++
    (if (detect_vcc wc).isSome then [ShadowType.STRUCTURAL] else [])

/-- The `tier` value after steps 3 and 4.  The source runs `tier = 1` on a
semantic hit and then `tier = tier or 2` on a V+CC hit; `tier` is never
`0` there, so Python truthiness coincides with `isSome`. -/
def tierOf (P : Parser) (wc : Str) : Option Nat :=
  let t1 : Option Nat := if semHit P wc then some 1 else none
  if (detect_vcc wc).isSome then some (t1.getD 2) else t1

/-- The warning list after steps 3 and 4. -/
def warningsOf (P : Parser) (wc : Str) : List Str :=
  (if semHit P wc then
    ["Semantic control: ".data ++ (SEMANTIC_SHADOWS.lookup (wc.map Char.toLower)).getD []]
  else []) ++
  (match detect_vcc wc with
   | some (p, sep) =>
     if sep = "tilde".data then
       ["V+CC shadow: ".data ++ p ++ " positional - tilde neutralizes".data]
     else
       ["V+CC shadow: ".data ++ p ++ " operational - hyphen required".data]
   | none => [])

/-- The alternatives list after step 4 (tilde- or hyphen-joined with the
residue of the uppercased word after the detected prefix). -/
def alternativesOf (wc : Str) : List Str :=
  match detect_vcc wc with
  | some (p, sep) =>
    let base := (wc.map Char.toUpper).drop p.length
    if sep = "tilde".data then [p ++ '~' :: base] else [p ++ '-' :: base]
  | none => []

/-- The polarity label after step 4. -/
def polarityOf (wc : Str) : Str :=
  match detect_vcc wc with
  | some (_, sep) =>
    if sep = "tilde".data then
      "Sovereign with tilde (positional union)".data
    else
      "Shadow (operational, use hyphen or avoid)".data
  | none => "Sovereign".data

/-- Python truthiness of an optional string: `None` and `""` are falsy. -/
def optPart (o : Option Str) : List Str :=
  match o with
  | some s => if s.isEmpty then [] else [s]
  | none => []

/-- The `parts` list built by the Structural and Ceremonial branches. -/
def partsOf (c : Components) : List Str :=
  optPart c.pre ++ (if c.base.isEmpty then [] else [c.base]) ++ optPart c.suffix

/-- Render of `f"{x}"` for an optional string (Python renders `None`). -/
def fstr (o : Option Str) : Str :=
  match o with
  | some s => s
  | none => "None".data

/-- Meaning of an info table entry: `info['meaning']`. -/
def meaningOf (info : List (Str × Str)) : Str :=
  (info.lookup ("meaning".data)).getD []

/-- The `parts_with_meaning` list of the Educational branch. -/
def pwmOf (c : Components) : List Str :=
  (match c.pre with
   | some p =>
     if p.isEmpty then []
     else
       match VCC_PREFIXES.lookup p with
       | some info => [p ++ '[' :: (meaningOf info ++ [']'])]
       | none =>
         match OTHER_PREFIXES.lookup p with
         | some info => [p ++ '[' :: (meaningOf info ++ [']'])]
         | none => [p]
   | none => []) ++
  (if c.base.isEmpty then []
   else
     match COMMON_ROOTS.lookup c.base with
     | some info => [c.base ++ '[' :: (meaningOf info ++ [']'])]
     | none => [c.base]) ++
  (match c.suffix with
   | some s =>
     if s.isEmpty then []
     else
       match FULL_WORD_SUFFIXES.lookup s with
       | some info => [s ++ '[' :: (meaningOf info ++ [']'])]
       | none =>
         match STANCE_SUFFIXES.lookup s with
         | some info => [s ++ '[' :: (meaningOf info ++ [']'])]
         | none => [s]
   | none => [])

/-- The optional `-SUFFIX` tail appended in the Structural tilde branch
(`if components['suffix']: parsed += f"-{components['suffix']}"`). -/
def sufDash (o : Option Str) : Str :=
  match o with
  | some s => if s.isEmpty then [] else '-' :: s
  | none => []

/-- Whether step 4 detected a positional (tilde) V+CC shadow. -/
def isTildeOf (wc : Str) : Bool :=
  match detect_vcc wc with
  | some (_, sep) => sep = "tilde".data
  | none => false

/-- The mode-dependent rendering (step 6).  The Casual branch indexes
`alternatives[0]` and the Educational tilde branch indexes
`parts_with_meaning[0]`; both are modelled with `head?`. -/
def renderParsed (P : Parser) (wc : Str) : Option Str :=
  let comps := extract_components wc
  match P.level with
  | ParsingLevel.CASUAL =>
    if isShadowOf P wc && !(alternativesOf wc).isEmpty then (alternativesOf wc).head?
    else some wc
  | ParsingLevel.STRUCTURAL =>
    if isTildeOf wc then
      some (fstr comps.pre ++ '~' :: comps.base ++ sufDash comps.suffix)
    else some (List.intercalate ("-".data) (partsOf comps))
  | ParsingLevel.CEREMONIAL => some (List.intercalate ("_".data) (partsOf comps))
  | ParsingLevel.EDUCATIONAL =>
    let pwm := pwmOf comps
    if isTildeOf wc then
      pwm.head?.map fun h => h ++ '~' :: List.intercalate ("~".data) pwm.tail
    else some (List.intercalate ("-".data) pwm)

/-- Step 8: first technical field whose term list contains the word. -/
def fieldContextOf (wc : Str) : Option Str :=
  TECHNICAL_FIELDS.findSome? fun ft =>
    if ft.2.contains (wc.map Char.toLower) then some ft.1 else none

/-- Step 9: the component-details list. -/
def componentDetailsOf (wc : Str) : List ComponentDetail :=
  let c := extract_components wc
  (match c.pre with
   | some p =>
     if p.isEmpty then []
     else [⟨"prefix".data, p, (all_prefixes.lookup p).getD []⟩]
   | none => []) ++
  (if c.base.isEmpty then []
   else [⟨"base".data, c.base, (COMMON_ROOTS.lookup c.base).getD []⟩]) ++
  (match c.suffix with
   | some s =>
     if s.isEmpty then []
     else [⟨"suffix".data, s,
       ((FULL_WORD_SUFFIXES.lookup s).orElse fun _ => STANCE_SUFFIXES.lookup s).getD []⟩]
   | none => [])

/-- `parse_word` from the source.  A `none` result would correspond to an
uncaught `IndexError` in the Python code; `parse_word_total` below shows
this never happens. -/
def parse_word (P : Parser) (word : Str) : Option GlyphAnalysis :=
  let original := strip word
  let wc := cleanOf word
  if is_greek_compound wc then
    some
      { original := original
        parsed := parse_greek wc
        polarity := "Sovereign (Greek compound)".data
        resonance := calculate_resonance wc
        is_shadow := false
        shadow_types := []
        components := []
        warnings := []
        alternatives := []
        tier := none
        field_context := none
        educational_note := some ("Greek compound with tilde flow".data) }
  else
    (renderParsed P wc).map fun parsed =>
      { original := original
        parsed := parsed
        polarity := polarityOf wc
        resonance := calculate_resonance wc
        is_shadow := isShadowOf P wc
        shadow_types := shadowTypesOf P wc
        components := componentDetailsOf wc
        warnings := warningsOf P wc
        alternatives := alternativesOf wc
        tier := tierOf P wc
        field_context := fieldContextOf wc
        educational_note := none }


/-! ### Tokenization (`re.findall(r"\b[\w\-\_\~\']+\b", text)`)

The token scanner models the regex directly: at each position where a
word boundary holds and the next character lies in the class
`[\w\-\_\~\']`, it takes the maximal run of class characters and then
backtracks the end of the run to the longest prefix that ends on a word
boundary; on failure it advances one character.  Fuel `length + 1`
dominates the number of steps because every step consumes at least one
character. -/

/-- Python's `\w` (ASCII model). -/
def wordCharB (c : Char) : Bool := c.isAlphanum || c = '_'

/-- The token character class `[\w\-\_\~\']`. -/
def tokCharB (c : Char) : Bool := wordCharB c || c = '-' || c = '~' || c = apos

/-- Word-char test of an optional character (out of range counts non-word). -/
def optWord (o : Option Char) : Bool :=
  match o with
  | some c => wordCharB c
  | none => false

/-- Does a word boundary hold after the first `k` characters of `run`
(the character after the run being `next`)?  Requires `1 ≤ k`. -/
def bEnd (run : Str) (next : Option Char) (k : Nat) : Bool :=
  match run[k - 1]? with
  | some a =>
    wordCharB a != optWord (match run[k]? with
      | some c => some c
      | none => next)
  | none => false

/-- Longest `k ≤ run.length` with `1 ≤ k` ending on a word boundary. -/
def findK (run : Str) (next : Option Char) : Nat → Option Nat
  | 0 => none
  | k + 1 => if bEnd run next (k + 1) then some (k + 1) else findK run next k

/-- The scan loop.  `prevW` is the word-char status of the previous
character (false at the start of the text). -/
def scanTok : Nat → Bool → Str → List Str
  | 0, _, _ => []
  | _ + 1, _, [] => []
  | f + 1, prevW, c :: rest =>
    if tokCharB c && (prevW != wordCharB c) then
      let run := (c :: rest).takeWhile tokCharB
      let after := (c :: rest).dropWhile tokCharB
      match findK run after.head? run.length with
      | some k =>
        run.take k :: scanTok f (optWord (run.take k).getLast?) (run.drop k ++ after)
      | none => scanTok f (wordCharB c) rest
    else scanTok f (wordCharB c) rest

/-- All word tokens of a text. -/
def findWords (text : Str) : List Str := scanTok (text.length + 1) false text

/-! ### Document reconstruction (`parse_document`)

`parse_document` tokenizes with the two-alternative pattern
`\b[\w\-\_\~\']+\b|[^\w\s]`: at each position the word-token
alternative is tried first (exactly as in `scanTok`), and when it fails
a single character that is neither a word character nor whitespace is
emitted as a punctuation token. -/

/-- The scan loop for the two-alternative pattern of `parse_document`. -/
def scanTok2 : Nat → Bool → Str → List Str
  | 0, _, _ => []
  | _ + 1, _, [] => []
  | f + 1, prevW, c :: rest =>
    if tokCharB c && (prevW != wordCharB c) then
      let run := (c :: rest).takeWhile tokCharB
      let after := (c :: rest).dropWhile tokCharB
      match findK run after.head? run.length with
      | some k =>
        run.take k :: scanTok2 f (optWord (run.take k).getLast?) (run.drop k ++ after)
      | none =>
        if !wordCharB c && !c.isWhitespace then
          [c] :: scanTok2 f (wordCharB c) rest
        else scanTok2 f (wordCharB c) rest
    else
      if !wordCharB c && !c.isWhitespace then
        [c] :: scanTok2 f (wordCharB c) rest
      else scanTok2 f (wordCharB c) rest

/-- All tokens (word tokens and standalone punctuation) of a text. -/
def findTokens (text : Str) : List Str := scanTok2 (text.length + 1) false text

/-- Python's `re.match(r"[\w\-\_\~\']+", word)`: the token starts
with at least one character of the class. -/
def startsTok (w : Str) : Bool :=
  match w with
  | c :: _ => tokCharB c
  | [] => false

/-- `parse_document` from the source: word-like tokens are replaced by
their parsed rendering, punctuation tokens pass through, and the results
are joined with single spaces (a `none` would be a propagated
`parse_word` failure, which `parse_word_total` rules out). -/
def parse_document (P : Parser) (text : Str) : Option Str :=
  (mapMO (fun word =>
      if startsTok word then (parse_word P word).map GlyphAnalysis.parsed
      else some word)
    (findTokens text)).map (List.intercalate [' '])

/-! ### Document analysis and reporting -/

/-- The `analyze_document` result dictionary.  The sovereignty score is a
float in the source; it is modelled as a rational (exact on every value
the formula produces from the word counts). -/
structure DocStats where
  total_words : Nat
  shadow_count : Nat
  structural_shadows : List Str
  semantic_shadows : List Str
  sovereignty_score : ℚ
deriving DecidableEq, Repr

/-- The accumulation loop of `analyze_document` over the token list and
the per-token analyses. -/
def docStatsOf (words : List Str) (analyses : List GlyphAnalysis) : DocStats :=
  let total_words : Nat := words.length
  let shadow_count : Nat := (analyses.filter (fun a => a.is_shadow)).length
  let structural_shadows :=
    ((words.zip analyses).filter fun wa =>
      wa.2.is_shadow && wa.2.shadow_types.contains ShadowType.STRUCTURAL).map Prod.fst
  let semantic_shadows :=
    ((words.zip analyses).filter fun wa =>
      wa.2.is_shadow && wa.2.shadow_types.contains ShadowType.SEMANTIC).map Prod.fst
  let sovereignty_score : ℚ :=
    if 0 < total_words then
      ((total_words : ℚ) - (shadow_count : ℚ)) / (total_words : ℚ) * 100
    else 0
  ⟨total_words, shadow_count, structural_shadows, semantic_shadows, sovereignty_score⟩

/-- `analyze_document` from the source (a `none` would be a propagated
`parse_word` failure, which `parse_word_total` rules out). -/
def analyze_document (P : Parser) (text : Str) : Option DocStats :=
  (mapMO (parse_word P) (findWords text)).map (docStatsOf (findWords text))

/-- One report bullet: `f"  • {word} → {parse_word(word).parsed}"`. -/
def bulletFor (P : Parser) (w : Str) : Option Str :=
  (parse_word P w).map fun a => "  • ".data ++ w ++ " → ".data ++ a.parsed

/-- Heading line of the structural-shadow section. -/
def structuralHeader (a : DocStats) : Str :=
  "STRUCTURAL SHADOWS (V+CC): ".data ++ Nat.toDigits 10 a.structural_shadows.length

/-- The `"... and N more"` note of the structural-shadow section. -/
def moreLine (a : DocStats) : Str :=
  "  ... and ".data ++ Nat.toDigits 10 (a.structural_shadows.length - 10) ++ " more".data

/-- The structural-shadow block of `generate_report`: the source iterates
over `set(structural_shadows[:10])` (modelled by `dedupFirst` of the
first ten occurrences; CPython's set order is unspecified) and appends
the note when the occurrence list is longer than ten. -/
def structural_section (P : Parser) (a : DocStats) : Option (List Str) :=
  if a.structural_shadows.isEmpty then some []
  else
    (mapMO (bulletFor P) (dedupFirst (a.structural_shadows.take 10))).map fun bullets =>
      structuralHeader a :: bullets ++
        (if 10 < a.structural_shadows.length then [moreLine a] else []) ++ [[]]

/-- Heading line of the semantic-shadow section. -/
def semanticHeader (a : DocStats) : Str :=
  "SEMANTIC SHADOWS (Control Language): ".data ++ Nat.toDigits 10 a.semantic_shadows.length

/-- The semantic-shadow block of `generate_report` (all distinct words,
no truncation). -/
def semantic_section (P : Parser) (a : DocStats) : Option (List Str) :=
  if a.semantic_shadows.isEmpty then some []
  else
    (mapMO (bulletFor P) (dedupFirst a.semantic_shadows)).map fun bullets =>
      semanticHeader a :: bullets ++ [[]]

/-- `.name` of a parsing level. -/
def levelName : ParsingLevel → Str
  | ParsingLevel.CASUAL => "CASUAL".data
  | ParsingLevel.STRUCTURAL => "STRUCTURAL".data
  | ParsingLevel.CEREMONIAL => "CEREMONIAL".data
  | ParsingLevel.EDUCATIONAL => "EDUCATIONAL".data

/-- `.name` of a strictness level. -/
def strictnessName : StrictnessLevel → Str
  | StrictnessLevel.PERMISSIVE => "PERMISSIVE".data
  | StrictnessLevel.STANDARD => "STANDARD".data
  | StrictnessLevel.RIGOROUS => "RIGOROUS".data

/-- One-decimal rendering of the sovereignty score, `f"{x:.1f}"`.  Every
score produced by the engine on the inputs considered here is exact at
one decimal, so the rounding mode is immaterial. -/
def fmtScore (q : ℚ) : Str :=
  let n : Nat := (Int.floor (q * 10 + 1 / 2)).toNat
  Nat.toDigits 10 (n / 10) ++ '.' :: Nat.toDigits 10 (n % 10)

/-- A row of 72 `=` characters. -/
def eqRow : Str := List.replicate 72 '='

/-- The line list of `generate_report`. -/
def report_lines (P : Parser) (text : Str) : Option (List Str) := do
  let a ← analyze_document P text
  let ss ← structural_section P a
  let ms ← semantic_section P a
  pure ([eqRow,
         "CODEXGLYPH DOCUMENT ANALYSIS REPORT".data,
         "Parsing Level: ".data ++ levelName P.level,
         "Strictness: ".data ++ strictnessName P.strictness,
         eqRow,
         [],
         "Total Words: ".data ++ Nat.toDigits 10 a.total_words,
         "Shadow Glyphs: ".data ++ Nat.toDigits 10 a.shadow_count,
         "Sovereignty Score: ".data ++ fmtScore a.sovereignty_score ++ "%".data,
         []] ++ ss ++ ms ++ [eqRow])

/-- `generate_report` from the source: the lines joined with newlines. -/
def generate_report (P : Parser) (text : Str) : Option Str :=
  (report_lines P text).map (List.intercalate ['\n'])


/-! ### Claim C1 -/

/-- C1 counterexample: with the default (Structural, Standard, semantic
flagging on) configuration, the parsed form of `"experiment"` is
`"EX~PERI-MENT"`, not `"EX~PERIM-ENT"` as the claim states: the
full-word suffix table (containing `MENT`) is consulted before the
operator table, so the split is base `PERI` + suffix `MENT`. -/
theorem c1_counterexample :
    (parse_word defaultParser ("experiment".data)).map GlyphAnalysis.parsed =
      some ("EX~PERI-MENT".data) ∧
    some ("EX~PERI-MENT".data) ≠ some ("EX~PERIM-ENT".data) := by
  constructor
  · decide
  · decide

/-- C1 (amended): for the input word `"experiment"` (Structural mode,
Standard strictness, semantic flagging on), `parse_word` detects a
positional shadow via prefix `EX`, and the component split is: prefix
`EX`, residual `PERIMENT`, suffix `MENT` found in the full-word suffix
table, base `PERI`; the parsed output equals `"EX~PERI-MENT"`. -/
theorem c1_amended :
    detect_vcc (cleanOf ("experiment".data)) = some ("EX".data, "tilde".data) ∧
    extract_components (cleanOf ("experiment".data)) =
      ⟨some ("EX".data), "PERI".data, some ("MENT".data)⟩ ∧
    (parse_word defaultParser ("experiment".data)).map GlyphAnalysis.parsed =
      some ("EX~PERI-MENT".data) := by
  refine ⟨by decide, by decide, by decide⟩

/-! ### Claim C9 -/

/-- C9: two runs of `parse_word` that differ only in the strictness
setting return identical analysis records; the strictness configuration
value is never consulted by `parse_word`. -/
theorem c9_strictness_noop (l : ParsingLevel) (s₁ s₂ : StrictnessLevel)
    (fs alt : Bool) (w : Str) :
    parse_word ⟨l, s₁, fs, alt⟩ w = parse_word ⟨l, s₂, fs, alt⟩ w := rfl


/-! ### Basic inversion lemmas for the table scans -/

theorem findPre_some {wu p : Str} (h : findPre wu = some p) :
    p <+: wu ∧ p.length < wu.length := by
  have hp := List.find?_some h
  simp only [Bool.and_eq_true, decide_eq_true_eq] at hp
  exact hp

theorem findPre_mem {wu p : Str} (h : findPre wu = some p) : p ∈ prefix_order :=
  List.mem_of_find?_eq_some h

theorem findSuf_some {tbl : List Str} {b s : Str} (h : findSuf tbl b = some s) :
    s <:+ b ∧ s.length < b.length := by
  have hp := List.find?_some h
  simp only [Bool.and_eq_true, decide_eq_true_eq] at hp
  exact hp

theorem findSuf_mem {tbl : List Str} {b s : Str} (h : findSuf tbl b = some s) :
    s ∈ tbl :=
  List.mem_of_find?_eq_some h

theorem sufChain_some {b s : Str} (h : sufChain b = some s) :
    (s <:+ b ∧ s.length < b.length) ∧ (s ∈ fullOrder ∨ s ∈ stanceOrder ∨ s ∈ operOrder) := by
  unfold sufChain at h
  rcases h1 : findSuf fullOrder b with _ | s1 <;> rw [h1] at h
  · rcases h2 : findSuf stanceOrder b with _ | s2 <;>
      rw [h2] at h <;> simp only [Option.none_orElse, Option.some_orElse] at h
    · exact ⟨findSuf_some h, Or.inr (Or.inr (findSuf_mem h))⟩
    · cases h; exact ⟨findSuf_some h2, Or.inr (Or.inl (findSuf_mem h2))⟩
  · simp only [Option.some_orElse] at h
    cases h; exact ⟨findSuf_some h1, Or.inl (findSuf_mem h1)⟩

theorem prefix_reconstruct {p u : Str} (h : p <+: u) : p ++ u.drop p.length = u := by
  obtain ⟨t, rfl⟩ := h
  rw [List.drop_left]

theorem suffix_reconstruct {s b : Str} (h : s <:+ b) :
    b.take (b.length - s.length) ++ s = b := by
  obtain ⟨t, rfl⟩ := h
  have hl : (t ++ s).length - s.length = t.length := by simp
  rw [hl, List.take_left]

theorem take_sub_ne_nil {s b : Str} (h : s.length < b.length) :
    b.take (b.length - s.length) ≠ [] := by
  have : (b.take (b.length - s.length)).length = b.length - s.length := by
    rw [List.length_take]
    omega
  intro hnil
  rw [hnil] at this
  simp at this
  omega

/-! ### Claim C10 -/

/-- C10: for every input word, concatenating the prefix (or empty string
if none), the base, and the suffix (or empty string if none) returned by
`extract_components` yields exactly the uppercased input word; moreover
the base is non-empty whenever the input word is non-empty. -/
theorem c10_components_reconstruct (w : Str) :
    ((extract_components w).pre.getD []) ++ (extract_components w).base ++
      ((extract_components w).suffix.getD []) = w.map Char.toUpper ∧
    (w ≠ [] → (extract_components w).base ≠ []) := by
  rcases hp : findPre (w.map Char.toUpper) with _ | p
  · rcases hs : sufChain (w.map Char.toUpper) with _ | s
    · simp only [extract_components, hp, hs, Option.getD_none, List.nil_append,
        List.append_nil]
      exact ⟨trivial, fun hw hnil => hw (by simpa using hnil)⟩
    · obtain ⟨⟨hsuf, hlen⟩, _⟩ := sufChain_some hs
      simp only [extract_components, hp, hs, Option.getD_none, Option.getD_some,
        List.nil_append]
      exact ⟨suffix_reconstruct hsuf, fun _ => take_sub_ne_nil hlen⟩
  · obtain ⟨hpre, hplen⟩ := findPre_some hp
    rcases hs : sufChain ((w.map Char.toUpper).drop p.length) with _ | s
    · simp only [extract_components, hp, hs, Option.getD_some, Option.getD_none,
        List.append_nil]
      refine ⟨prefix_reconstruct hpre, fun _ hnil => ?_⟩
      have h1 := congrArg List.length hnil
      simp only [List.length_drop, List.length_nil] at h1
      omega
    · obtain ⟨⟨hsuf, hlen⟩, _⟩ := sufChain_some hs
      simp only [extract_components, hp, hs, Option.getD_some]
      constructor
      · rw [List.append_assoc, suffix_reconstruct hsuf, prefix_reconstruct hpre]
      · exact fun _ => take_sub_ne_nil hlen

/-- C10 witness: the reconstruction and non-emptiness at the concrete
input `"experiment"`. -/
theorem c10_witness :
    (("experiment".data : Str) ≠ [] →
      (extract_components ("experiment".data)).base ≠ []) ∧
    (extract_components ("experiment".data)).base ≠ [] :=
  ⟨(c10_components_reconstruct ("experiment".data)).2,
   (c10_components_reconstruct ("experiment".data)).2 (by decide)⟩


/-! ### Claim C6 -/

theorem reduceAux_master (f n : Nat) (h : isMaster n = true) : reduceAux f n = n := by
  cases f with
  | zero => rfl
  | succ f => simp [reduceAux, h]

theorem lookup_some_pair_mem {α β : Type} [DecidableEq α] :
    ∀ {l : List (α × β)} {a : α} {v : β}, l.lookup a = some v → (a, v) ∈ l := by
  intro l
  induction l with
  | nil => intro a v h; cases h
  | cons e es ih =>
    intro a v h
    cases e with
    | mk k b =>
      by_cases hak : a = k
      · subst hak
        simp only [List.lookup, beq_self_eq_true] at h
        injection h with h
        subst h
        exact List.mem_cons_self _ _
      · have hbeq : (a == k) = false := by
          simpa using hak
        simp only [List.lookup, hbeq] at h
        exact List.mem_cons_of_mem _ (ih h)

/-- C6: for every letter sequence whose raw per-letter value sum is a
master number, the resonance output is that value followed by its
master-number label in parentheses, and contains no `→` arrow, because
the digit-sum reduction loop halts immediately on master numbers. -/
theorem c6_master_preserved (w : Str) (lbl : Str)
    (h : MASTER_NUMBERS.lookup (rawTotal w) = some lbl) :
    calculate_resonance w =
      Nat.toDigits 10 (rawTotal w) ++ ' ' :: '(' :: (lbl ++ [')']) ∧
    '→' ∉ calculate_resonance w := by
  have hm : isMaster (rawTotal w) = true := by
    unfold isMaster
    rw [h]
    rfl
  have hr : reduceRes (rawTotal w) = rawTotal w := reduceAux_master _ _ hm
  have htag : masterTag (rawTotal w) = ' ' :: '(' :: (lbl ++ [')']) := by
    simp only [masterTag, h]
  have hcalc : calculate_resonance w =
      Nat.toDigits 10 (rawTotal w) ++ masterTag (rawTotal w) := by
    simp only [calculate_resonance, hr, if_pos]
  have hpair := lookup_some_pair_mem h
  have hlbl : '→' ∉ lbl := by
    have hall : ∀ e ∈ MASTER_NUMBERS, '→' ∈ e.2 → False := by decide
    exact fun hmem => hall _ hpair hmem
  have ht : rawTotal w ∈ [11, 22, 33, 44, 55, 66, 77, 88, 99] := by
    have := List.mem_map_of_mem Prod.fst hpair
    simpa [MASTER_NUMBERS] using this
  refine ⟨by rw [hcalc, htag], ?_⟩
  rw [hcalc, htag]
  intro hmem
  rw [List.mem_append] at hmem
  rcases hmem with hA | hrest
  · simp only [List.mem_cons, List.not_mem_nil, or_false] at ht
    rcases ht with ht | ht | ht | ht | ht | ht | ht | ht | ht <;>
      rw [ht] at hA <;> exact absurd hA (by decide)
  · simp only [List.mem_cons, List.mem_append] at hrest
    rcases hrest with h1 | h1 | h1 | h1
    · exact absurd h1 (by decide)
    · exact absurd h1 (by decide)
    · exact hlbl h1
    · simp only [List.mem_cons, List.not_mem_nil, or_false] at h1
      exact absurd h1 (by decide)

/-- C6 witness: the single letter `"K"` has raw sum 11, and its
resonance renders as `"11 (Gateway·Luminator)"` with no arrow. -/
theorem c6_witness :
    MASTER_NUMBERS.lookup (rawTotal ("K".data)) =
      some ("Gateway·Luminator".data) ∧
    calculate_resonance ("K".data) =
      Nat.toDigits 10 (rawTotal ("K".data)) ++
        ' ' :: '(' :: ("Gateway·Luminator".data ++ [')']) ∧
    '→' ∉ calculate_resonance ("K".data) :=
  ⟨by decide,
   (c6_master_preserved ("K".data) ("Gateway·Luminator".data) (by decide)).1,
   (c6_master_preserved ("K".data) ("Gateway·Luminator".data) (by decide)).2⟩




/-! ### Totality of the pipeline (Claim C2) -/

theorem mem_insertByLen {x s : Str} {l : List Str} :
    x ∈ insertByLen s l ↔ x = s ∨ x ∈ l := by
  induction l with
  | nil => simp [insertByLen]
  | cons t ts ih =>
    by_cases hts : t.length ≤ s.length
    · simp [insertByLen, hts, List.mem_cons]
    · simp only [insertByLen, if_neg hts, List.mem_cons, ih]
      tauto

theorem mem_sortLenDesc {x : Str} {l : List Str} :
    x ∈ sortLenDesc l ↔ x ∈ l := by
  induction l with
  | nil => simp [sortLenDesc]
  | cons t ts ih =>
    show x ∈ insertByLen t (sortLenDesc ts) ↔ _
    simp only [mem_insertByLen, ih, List.mem_cons]

theorem detect_vcc_props {wc p sep : Str} (h : detect_vcc wc = some (p, sep)) :
    p ∈ VCC_PREFIXES.map Prod.fst ∧
    p <+: wc.map Char.toUpper ∧ p.length < (wc.map Char.toUpper).length := by
  unfold detect_vcc at h
  obtain ⟨e, he, hfe⟩ := List.exists_of_findSome?_eq_some h
  split at hfe
  case isTrue hcond =>
    simp only [Bool.and_eq_true, decide_eq_true_eq] at hcond
    split at hfe
    case h_1 c tail hdrop =>
      split at hfe
      case isTrue hc =>
        have key : p = e.1 := by
          split at hfe <;>
          · injection hfe with h2
            rw [Prod.mk.injEq] at h2
            exact h2.1.symm
        subst key
        exact ⟨List.mem_map_of_mem Prod.fst he, hcond.1, hcond.2⟩
      case isFalse hc => cases hfe
    case h_2 => cases hfe
  case isFalse hcond => cases hfe

theorem all_prefix_keys_of_vcc {p : Str} (h : p ∈ VCC_PREFIXES.map Prod.fst) :
    p ∈ all_prefixes.map Prod.fst := by
  unfold all_prefixes
  rw [List.map_append, List.mem_append]
  exact Or.inl h

theorem findPre_isSome_of {wu q : Str} (hq : q ∈ all_prefixes.map Prod.fst)
    (hpre : q <+: wu) (hlen : q.length < wu.length) : (findPre wu).isSome := by
  unfold findPre
  rw [List.find?_isSome]
  exact ⟨q, mem_sortLenDesc.mpr hq, by simp [hpre, hlen]⟩

theorem prefix_order_ne_nil : ∀ p ∈ prefix_order, p ≠ [] := by decide

theorem ec_pre (w : Str) :
    (extract_components w).pre = findPre (w.map Char.toUpper) := rfl

theorem head?_isSome_of_not_isEmpty {l : List Str} (h : l.isEmpty = false) :
    l.head?.isSome := by
  cases l with
  | nil => cases h
  | cons x xs => rfl

theorem pwmOf_ne_nil_of_pre {c : Components} {q : Str}
    (hq : c.pre = some q) (hne : q ≠ []) : pwmOf c ≠ [] := by
  rcases c with ⟨pre, base, suf⟩
  have hq' : pre = some q := hq
  subst hq'
  cases q with
  | nil => exact absurd rfl hne
  | cons a as =>
    unfold pwmOf
    dsimp only
    rcases VCC_PREFIXES.lookup (a :: as) with _ | info
    · rcases OTHER_PREFIXES.lookup (a :: as) with _ | info <;> simp
    · simp

theorem renderParsed_isSome (P : Parser) (wc : Str) :
    (renderParsed P wc).isSome := by
  rcases P with ⟨level, strictness, fs, alts⟩
  cases level <;> simp only [renderParsed]
  case CASUAL =>
    split
    case isTrue hg =>
      simp only [Bool.and_eq_true, Bool.not_eq_true'] at hg
      exact head?_isSome_of_not_isEmpty hg.2
    case isFalse => rfl
  case STRUCTURAL =>
    split <;> rfl
  case CEREMONIAL => rfl
  case EDUCATIONAL =>
    split
    case isTrue ht =>
      rcases hv : detect_vcc wc with _ | ⟨p, sep⟩
      · simp [isTildeOf, hv] at ht
      · obtain ⟨hkeys, hpre, hlen⟩ := detect_vcc_props hv
        have hsome := findPre_isSome_of (all_prefix_keys_of_vcc hkeys) hpre hlen
        rcases hfp : findPre (wc.map Char.toUpper) with _ | q
        · rw [hfp] at hsome; cases hsome
        · have hqne : q ≠ [] := prefix_order_ne_nil q (findPre_mem hfp)
          have hpw : pwmOf (extract_components wc) ≠ [] :=
            pwmOf_ne_nil_of_pre ((ec_pre wc).trans hfp) hqne
          rcases hp : pwmOf (extract_components wc) with _ | ⟨h0, hs2⟩
          · exact absurd hp hpw
          · rfl
    case isFalse => rfl

theorem parse_word_total (P : Parser) (w : Str) : (parse_word P w).isSome := by
  unfold parse_word
  by_cases hg : is_greek_compound (cleanOf w) = true
  · rw [if_pos hg]; rfl
  · rw [if_neg hg]
    have h1 := renderParsed_isSome P (cleanOf w)
    rcases h : renderParsed P (cleanOf w) with _ | parsed
    · rw [h] at h1; cases h1
    · rfl

theorem mapMO_isSome {α β : Type} (f : α → Option β) :
    ∀ l : List α, (∀ x ∈ l, (f x).isSome) → (mapMO f l).isSome := by
  intro l
  induction l with
  | nil => intro _; rfl
  | cons x xs ih =>
    intro h
    have hx := h x (List.mem_cons_self _ _)
    have hxs := ih fun y hy => h y (List.mem_cons_of_mem _ hy)
    unfold mapMO
    rcases hfx : f x with _ | y
    · rw [hfx] at hx; cases hx
    · rcases hm : mapMO f xs with _ | ys
      · rw [hm] at hxs; cases hxs
      · rfl

theorem analyze_document_isSome (P : Parser) (t : Str) :
    (analyze_document P t).isSome := by
  have h := mapMO_isSome (parse_word P) (findWords t)
    (fun x _ => parse_word_total P x)
  unfold analyze_document
  rcases hm : mapMO (parse_word P) (findWords t) with _ | analyses
  · rw [hm] at h; cases h
  · rfl

theorem bulletFor_isSome (P : Parser) (x : Str) : (bulletFor P x).isSome := by
  unfold bulletFor
  have h1 := parse_word_total P x
  rcases hp : parse_word P x with _ | b
  · rw [hp] at h1; cases h1
  · rfl

theorem structural_section_isSome (P : Parser) (a : DocStats) :
    (structural_section P a).isSome := by
  unfold structural_section
  split
  · rfl
  · have h := mapMO_isSome (bulletFor P)
      (dedupFirst (a.structural_shadows.take 10))
      (fun x _ => bulletFor_isSome P x)
    rcases hm : mapMO (bulletFor P) (dedupFirst (a.structural_shadows.take 10)) with _ | bs
    · rw [hm] at h; cases h
    · rfl

theorem semantic_section_isSome (P : Parser) (a : DocStats) :
    (semantic_section P a).isSome := by
  unfold semantic_section
  split
  · rfl
  · have h := mapMO_isSome (bulletFor P) (dedupFirst a.semantic_shadows)
      (fun x _ => bulletFor_isSome P x)
    rcases hm : mapMO (bulletFor P) (dedupFirst a.semantic_shadows) with _ | bs
    · rw [hm] at h; cases h
    · rfl

theorem report_lines_isSome (P : Parser) (t : Str) :
    (report_lines P t).isSome := by
  unfold report_lines
  have h1 := analyze_document_isSome P t
  rcases ha : analyze_document P t with _ | a
  · rw [ha] at h1; cases h1
  · have h2 := structural_section_isSome P a
    rcases hs : structural_section P a with _ | ss
    · rw [hs] at h2; cases h2
    · have h3 := semantic_section_isSome P a
      rcases hm : semantic_section P a with _ | ms
      · rw [hm] at h3; cases h3
      · simp [hs, hm]

theorem parse_document_isSome (P : Parser) (t : Str) :
    (parse_document P t).isSome := by
  unfold parse_document
  have h := mapMO_isSome
    (fun word =>
      if startsTok word then (parse_word P word).map GlyphAnalysis.parsed
      else some word)
    (findTokens t)
    (fun x _ => by
      dsimp only
      by_cases hs : startsTok x = true
      · rw [if_pos hs]
        have h1 := parse_word_total P x
        rcases hp : parse_word P x with _ | a
        · rw [hp] at h1; cases h1
        · rfl
      · rw [if_neg hs]
        rfl)
  rcases hm : mapMO (fun word =>
      if startsTok word then (parse_word P word).map GlyphAnalysis.parsed
      else some word) (findTokens t) with _ | parsed
  · rw [hm] at h; cases h
  · rfl

/-- C2: every core operation is total: for every configuration and every
string input, `parse_word` returns an analysis record (the two list
indexings of the source are unreachable when their guards fail, so no
`IndexError` can occur), `calculate_resonance` returns a string, and the
document-level operations `parse_document`, `analyze_document` and
`generate_report` likewise return results. -/
theorem c2_no_exceptions (P : Parser) (w t : Str) :
    (∃ a, parse_word P w = some a) ∧
    (∃ r, calculate_resonance w = r) ∧
    (∃ d, parse_document P t = some d) ∧
    (∃ st, analyze_document P t = some st) ∧
    (∃ rep, generate_report P t = some rep) := by
  refine ⟨?_, ⟨calculate_resonance w, rfl⟩, ?_, ?_, ?_⟩
  · have h := parse_word_total P w
    rcases hp : parse_word P w with _ | a
    · rw [hp] at h; cases h
    · exact ⟨a, rfl⟩
  · have h := parse_document_isSome P t
    rcases hp : parse_document P t with _ | d
    · rw [hp] at h; cases h
    · exact ⟨d, rfl⟩
  · have h := analyze_document_isSome P t
    rcases hp : analyze_document P t with _ | st
    · rw [hp] at h; cases h
    · exact ⟨st, rfl⟩
  · have h := report_lines_isSome P t
    rcases hp : report_lines P t with _ | lines
    · rw [hp] at h; cases h
    · exact ⟨List.intercalate ['\n'] lines, by simp [generate_report, hp]⟩



/-! ### Claim C7 -/

theorem docStatsOf_score (ws : List Str) (as : List GlyphAnalysis) :
    (docStatsOf ws as).sovereignty_score =
      if 0 < (docStatsOf ws as).total_words then
        (((docStatsOf ws as).total_words : ℚ) - ((docStatsOf ws as).shadow_count : ℚ)) /
          ((docStatsOf ws as).total_words : ℚ) * 100
      else 0 := rfl

/-- C7: for every input text, `analyze_document` returns a sovereignty
score equal to `(total − shadow) / total × 100` when `total > 0` and `0`
when `total = 0` (never dividing by zero); in particular the ten-word
text `"exp inj imp a b c d e f g"` with three shadow words has
`total_words = 10`, `shadow_count = 3` and score `70`, and the empty
text has `total_words = 0` and score `0`. -/
theorem c7_sovereignty_score :
    (∀ (P : Parser) (text : Str) (st : DocStats),
      analyze_document P text = some st →
        (st.total_words ≠ 0 →
          st.sovereignty_score =
            ((st.total_words : ℚ) - (st.shadow_count : ℚ)) / (st.total_words : ℚ) * 100) ∧
        (st.total_words = 0 → st.sovereignty_score = 0)) ∧
    (∀ st, analyze_document defaultParser ("exp inj imp a b c d e f g".data) = some st →
        st.total_words = 10 ∧ st.shadow_count = 3 ∧ st.sovereignty_score = 70) ∧
    (∀ st, analyze_document defaultParser ("".data) = some st →
        st.total_words = 0 ∧ st.sovereignty_score = 0) := by
  have hgen : ∀ (P : Parser) (text : Str) (st : DocStats),
      analyze_document P text = some st →
        (st.total_words ≠ 0 →
          st.sovereignty_score =
            ((st.total_words : ℚ) - (st.shadow_count : ℚ)) / (st.total_words : ℚ) * 100) ∧
        (st.total_words = 0 → st.sovereignty_score = 0) := by
    intro P text st h
    unfold analyze_document at h
    rcases hm : mapMO (parse_word P) (findWords text) with _ | analyses
    · rw [hm] at h; cases h
    · rw [hm] at h
      simp only [Option.map_some', Option.some.injEq] at h
      subst h
      constructor
      · intro h0
        rw [docStatsOf_score, if_pos (Nat.pos_of_ne_zero h0)]
      · intro h0
        rw [docStatsOf_score, if_neg]
        omega
  refine ⟨hgen, ?_, ?_⟩
  · intro st h
    have hts : (analyze_document defaultParser ("exp inj imp a b c d e f g".data)).map
        (fun s => (s.total_words, s.shadow_count)) = some (10, 3) := by decide
    rw [h] at hts
    simp only [Option.map_some', Option.some.injEq, Prod.mk.injEq] at hts
    obtain ⟨h10, h3⟩ := hts
    refine ⟨h10, h3, ?_⟩
    have hs := (hgen defaultParser ("exp inj imp a b c d e f g".data) st h).1
      (by rw [h10]; exact (by norm_num))
    rw [h10, h3] at hs
    rw [hs]
    norm_num
  · intro st h
    have hts : (analyze_document defaultParser ("".data)).map
        (fun s => s.total_words) = some 0 := by decide
    rw [h] at hts
    simp only [Option.map_some', Option.some.injEq] at hts
    exact ⟨hts, (hgen defaultParser ("".data) st h).2 hts⟩

/-- C7 witness: the score equation instantiated at the concrete ten-word
document with three structural shadows. -/
theorem c7_witness :
    ((analyze_document defaultParser ("exp inj imp a b c d e f g".data)).get
        (analyze_document_isSome defaultParser
          ("exp inj imp a b c d e f g".data))).sovereignty_score = 70 :=
  (c7_sovereignty_score.2.1 _ (Option.some_get _).symm).2.2

/-! ### Claim C8 -/

/-- C8: for every word on which both the semantic-shadow table lookup and
the structural V+CC detector fire (both checks run only after the Greek
early exit declined), the analysis has tier 1 — the semantic check sets
the tier first and `tier = tier or 2` does not overwrite it — and the
shadow-type list contains both the semantic and the structural tag. -/
theorem c8_dual_shadow_tier (P : Parser) (w : Str)
    (hg : is_greek_compound (cleanOf w) = false)
    (hf : P.flag_semantic = true)
    (hsem : (SEMANTIC_SHADOWS.lookup ((cleanOf w).map Char.toLower)).isSome = true)
    (hvcc : (detect_vcc (cleanOf w)).isSome = true) :
    ∃ a, parse_word P w = some a ∧
      a.tier = some 1 ∧
      ShadowType.SEMANTIC ∈ a.shadow_types ∧
      ShadowType.STRUCTURAL ∈ a.shadow_types := by
  have htot := parse_word_total P w
  rcases ha : parse_word P w with _ | a
  · rw [ha] at htot; cases htot
  · refine ⟨a, rfl, ?_⟩
    unfold parse_word at ha
    simp only [hg, Bool.false_eq_true, if_false] at ha
    rcases hr : renderParsed P (cleanOf w) with _ | parsed
    · rw [hr] at ha; cases ha
    · rw [hr] at ha
      simp only [Option.map_some', Option.some.injEq] at ha
      subst ha
      have hsemHit : semHit P (cleanOf w) = true := by
        simp [semHit, hf, hsem]
      refine ⟨?_, ?_, ?_⟩
      · show tierOf P (cleanOf w) = some 1
        simp [tierOf, hsemHit, hvcc]
      · show ShadowType.SEMANTIC ∈ shadowTypesOf P (cleanOf w)
        simp [shadowTypesOf, hsemHit]
      · show ShadowType.STRUCTURAL ∈ shadowTypesOf P (cleanOf w)
        simp [shadowTypesOf, hvcc]

/-- C8 witness: `"information"` is both a semantic-table key and a V+CC
structural shadow (`IN` + consonant), and its analysis carries tier 1
and both shadow tags. -/
theorem c8_witness :
    ∃ a, parse_word defaultParser ("information".data) = some a ∧
      a.tier = some 1 ∧
      ShadowType.SEMANTIC ∈ a.shadow_types ∧
      ShadowType.STRUCTURAL ∈ a.shadow_types :=
  c8_dual_shadow_tier defaultParser ("information".data)
    (by decide) rfl (by decide) (by decide)



/-! ### Claim C4 -/

theorem vcc_not_greek {wc : Str} {x : Str × Str} (h : detect_vcc wc = some x) :
    is_greek_compound wc = false := by
  rcases x with ⟨p, sep⟩
  obtain ⟨hkey, hpre, _⟩ := detect_vcc_props h
  by_contra hg
  rw [Bool.not_eq_false] at hg
  unfold is_greek_compound at hg
  rw [List.any_eq_true] at hg
  obtain ⟨rp, hrp, hcond⟩ := hg
  rw [Bool.and_eq_true, decide_eq_true_eq] at hcond
  have hp2 : p.length = 2 := by
    have hall : ∀ q ∈ VCC_PREFIXES.map Prod.fst, q.length = 2 := by decide
    exact hall p hkey
  have hr2 : 2 ≤ rp.1.length := by
    have hall : ∀ r ∈ GREEK_ROOTS, 2 ≤ r.1.length := by decide
    exact hall rp hrp
  have hpr : p <+: rp.1 := List.prefix_of_prefix_length_le hpre hcond.1 (by omega)
  have hnone : ∀ q ∈ VCC_PREFIXES.map Prod.fst, ∀ r ∈ GREEK_ROOTS, ¬(q <+: r.1) := by
    decide
  exact hnone p hkey rp hrp hpr

theorem optPart_mem {o : Option Str} {x : Str} (h : x ∈ optPart o) : o = some x := by
  rcases o with _ | q
  · simp [optPart] at h
  · simp only [optPart] at h
    split at h
    · simp at h
    · rw [List.mem_singleton] at h
      subst h
      rfl

theorem partsOf_mem {c : Components} {x : Str} (h : x ∈ partsOf c) :
    c.pre = some x ∨ x = c.base ∨ c.suffix = some x := by
  unfold partsOf at h
  rcases List.mem_append.mp h with h12 | h3
  · rcases List.mem_append.mp h12 with h1 | h2
    · exact Or.inl (optPart_mem h1)
    · right; left
      split at h2
      · simp at h2
      · rw [List.mem_singleton] at h2
        exact h2
  · exact Or.inr (Or.inr (optPart_mem h3))

theorem ec_suffix_tables {w s : Str} (h : (extract_components w).suffix = some s) :
    s ∈ fullOrder ∨ s ∈ stanceOrder ∨ s ∈ operOrder := by
  rcases hp : findPre (w.map Char.toUpper) with _ | p <;>
    simp only [extract_components, hp] at h <;>
    exact (sufChain_some h).2

theorem ec_base_subset {w : Str} : ∀ {c : Char},
    c ∈ (extract_components w).base → c ∈ w.map Char.toUpper := by
  intro c hc
  rcases hp : findPre (w.map Char.toUpper) with _ | p <;>
    simp only [extract_components, hp] at hc
  · rcases hs : sufChain (w.map Char.toUpper) with _ | s <;> simp only [hs] at hc
    · exact hc
    · exact List.take_subset _ _ hc
  · rcases hs : sufChain ((w.map Char.toUpper).drop p.length) with _ | s <;>
      simp only [hs] at hc
    · exact List.drop_subset _ _ hc
    · exact List.drop_subset _ _ (List.take_subset _ _ hc)

theorem prefix_order_no_tilde : ∀ p ∈ prefix_order, '~' ∉ p := by decide

theorem suffix_tables_no_tilde :
    ∀ s ∈ fullOrder ++ stanceOrder ++ operOrder, '~' ∉ s := by decide

theorem renderParsed_structural_tilde {P : Parser} {wc : Str}
    (hlev : P.level = ParsingLevel.STRUCTURAL) (ht : isTildeOf wc = true) :
    renderParsed P wc = some (fstr (extract_components wc).pre ++ '~' ::
      (extract_components wc).base ++ sufDash (extract_components wc).suffix) := by
  unfold renderParsed
  rw [hlev]
  simp [ht]

theorem renderParsed_ceremonial {P : Parser} {wc : Str}
    (hlev : P.level = ParsingLevel.CEREMONIAL) :
    renderParsed P wc =
      some (List.intercalate ("_".data) (partsOf (extract_components wc))) := by
  unfold renderParsed
  rw [hlev]

theorem count_tilde_structural (A B : Str) (o : Option Str)
    (hA : '~' ∉ A) (hB : '~' ∉ B) (ho : ∀ s, o = some s → '~' ∉ s) :
    (A ++ '~' :: B ++ sufDash o).count '~' = 1 := by
  have hsuf : (sufDash o).count '~' = 0 := by
    rcases o with _ | s
    · rfl
    · have hs := ho s rfl
      simp only [sufDash]
      split
      · rfl
      · rw [List.count_eq_zero]
        intro hmem
        rcases List.mem_cons.mp hmem with h | h
        · exact absurd h (by decide)
        · exact hs h
  rw [List.count_append, List.count_append, List.count_cons_self,
    List.count_eq_zero.mpr hA, List.count_eq_zero.mpr hB, hsuf]

theorem mem_of_mem_intercalate {sep : Str} {l : List Str} {c : Char}
    (h : c ∈ List.intercalate sep l) : c ∈ sep ∨ ∃ x ∈ l, c ∈ x := by
  induction l with
  | nil => simp [List.intercalate, List.intersperse] at h
  | cons x xs ih =>
    cases xs with
    | nil =>
      simp [List.intercalate, List.intersperse] at h
      exact Or.inr ⟨x, List.mem_singleton_self x, h⟩
    | cons y ys =>
      have hunf : List.intercalate sep (x :: y :: ys) =
          x ++ (sep ++ List.intercalate sep (y :: ys)) := by
        simp [List.intercalate, List.intersperse]
      rw [hunf] at h
      rcases List.mem_append.mp h with h1 | h2
      · exact Or.inr ⟨x, List.mem_cons_self _ _, h1⟩
      · rcases List.mem_append.mp h2 with h3 | h4
        · exact Or.inl h3
        · rcases ih h4 with h5 | ⟨z, hz, hcz⟩
          · exact Or.inl h5
          · exact Or.inr ⟨z, List.mem_cons_of_mem _ hz, hcz⟩

/-- C4 counterexample: the cleaned word may itself contain a tilde and
Greek compounds render with a tilde in every mode, so both halves of the
claim fail: the Structural rendering of the tilde-shadow word `"atb~c"`
contains two `~` characters, and the Ceremonial renderings of
`"biology"` (Greek early exit) and of `"atb~c"` contain `~`. -/
theorem c4_counterexample :
    (parse_word defaultParser ("atb~c".data)).map (fun a => a.parsed.count '~') =
      some 2 ∧
    detect_vcc (cleanOf ("atb~c".data)) = some ("AT".data, "tilde".data) ∧
    (parse_word ⟨ParsingLevel.CEREMONIAL, StrictnessLevel.STANDARD, true, true⟩
        ("biology".data)).map (fun a => decide ('~' ∈ a.parsed)) = some true ∧
    (parse_word ⟨ParsingLevel.CEREMONIAL, StrictnessLevel.STANDARD, true, true⟩
        ("atb~c".data)).map (fun a => decide ('~' ∈ a.parsed)) = some true := by
  refine ⟨by decide, by decide, by decide, by decide⟩

/-- C4 (amended): for every input word whose cleaned uppercased form
contains no `~`, the Structural-mode rendering of a tilde-type
(positional) shadow word contains exactly one `~`, and the
Ceremonial-mode rendering of a word that is not a Greek compound never
contains `~`. -/
theorem c4_amended :
    (∀ (P : Parser) (w : Str) (p : Str),
      P.level = ParsingLevel.STRUCTURAL →
      detect_vcc (cleanOf w) = some (p, "tilde".data) →
      '~' ∉ (cleanOf w).map Char.toUpper →
      ∀ a, parse_word P w = some a → a.parsed.count '~' = 1) ∧
    (∀ (P : Parser) (w : Str),
      P.level = ParsingLevel.CEREMONIAL →
      is_greek_compound (cleanOf w) = false →
      '~' ∉ (cleanOf w).map Char.toUpper →
      ∀ a, parse_word P w = some a → '~' ∉ a.parsed) := by
  constructor
  · intro P w p hlev hvcc hnot a ha
    have hg : is_greek_compound (cleanOf w) = false := vcc_not_greek hvcc
    unfold parse_word at ha
    simp only [hg, Bool.false_eq_true, if_false] at ha
    have ht : isTildeOf (cleanOf w) = true := by simp [isTildeOf, hvcc]
    rw [renderParsed_structural_tilde hlev ht] at ha
    simp only [Option.map_some', Option.some.injEq] at ha
    subst ha
    apply count_tilde_structural
    · rcases hp : (extract_components (cleanOf w)).pre with _ | q
      · decide
      · simp only [fstr]
        exact prefix_order_no_tilde q (findPre_mem ((ec_pre (cleanOf w)).symm.trans hp))
    · intro hmem
      exact hnot (ec_base_subset hmem)
    · intro s hsuf hmem
      have hs3 := ec_suffix_tables hsuf
      exact suffix_tables_no_tilde s
        (by rw [List.mem_append, List.mem_append]; tauto) hmem
  · intro P w hlev hg hnot a ha
    unfold parse_word at ha
    simp only [hg, Bool.false_eq_true, if_false] at ha
    rw [renderParsed_ceremonial hlev] at ha
    simp only [Option.map_some', Option.some.injEq] at ha
    subst ha
    show '~' ∉ List.intercalate ("_".data) (partsOf (extract_components (cleanOf w)))
    intro hmem
    rcases mem_of_mem_intercalate hmem with h1 | ⟨x, hx, hcx⟩
    · exact absurd h1 (by decide)
    · rcases partsOf_mem hx with h2 | h2 | h2
      · exact prefix_order_no_tilde x
          (findPre_mem ((ec_pre (cleanOf w)).symm.trans h2)) hcx
      · subst h2
        exact hnot (ec_base_subset hcx)
      · have hs3 := ec_suffix_tables h2
        exact suffix_tables_no_tilde x
          (by rw [List.mem_append, List.mem_append]; tauto) hcx

/-- C4 witness: `"export"` is a positional shadow and its Structural
rendering has exactly one tilde; `"cat"` in Ceremonial mode renders with
no tilde. -/
theorem c4_witness :
    ((parse_word defaultParser ("export".data)).get
        (parse_word_total defaultParser ("export".data))).parsed.count '~' = 1 ∧
    '~' ∉ ((parse_word ⟨ParsingLevel.CEREMONIAL, StrictnessLevel.STANDARD, true, true⟩
        ("cat".data)).get
        (parse_word_total ⟨ParsingLevel.CEREMONIAL, StrictnessLevel.STANDARD, true, true⟩
          ("cat".data))).parsed :=
  ⟨c4_amended.1 defaultParser ("export".data) ("EX".data) rfl (by decide) (by decide)
      _ (Option.some_get _).symm,
   c4_amended.2 ⟨ParsingLevel.CEREMONIAL, StrictnessLevel.STANDARD, true, true⟩
      ("cat".data) rfl (by decide) (by decide) _ (Option.some_get _).symm⟩


/-! ### Claim C3 -/

/-- The eleven-token document used to separate "first ten distinct
structural-shadow words" from the source's `set(structural_shadows[:10])`. -/
def c3T : Str := "exp exp exp exp exp exp exp exp exp exp inj".data

/-- C3 counterexample: on a document whose structural-shadow occurrence
list is ten copies of `"exp"` followed by `"inj"`, the report's
structural section lists only `"exp"` (though the first ten distinct
structural-shadow words are `"exp"` and `"inj"`, and `"inj"`'s bullet is
well defined) and appends `"... and 1 more"` although the distinct list
has only two entries and was not truncated at the ten-item threshold. -/
theorem c3_counterexample :
    ((analyze_document defaultParser c3T).get
        (analyze_document_isSome defaultParser c3T)).structural_shadows =
      List.replicate 10 ("exp".data) ++ [("inj".data)] ∧
    structural_section defaultParser
        ((analyze_document defaultParser c3T).get
          (analyze_document_isSome defaultParser c3T)) =
      some ["STRUCTURAL SHADOWS (V+CC): 11".data,
            "  • exp → EX~P".data,
            "  ... and 1 more".data,
            []] ∧
    bulletFor defaultParser ("inj".data) = some ("  • inj → IN~J".data) ∧
    (dedupFirst (List.replicate 10 ("exp".data) ++ [("inj".data)])).take 10 =
      ["exp".data, "inj".data] ∧
    (dedupFirst (List.replicate 10 ("exp".data) ++ [("inj".data)])).length ≤ 10 := by
  refine ⟨by decide, by decide, by decide, by decide, by decide⟩

/-- C3 (amended): for every input text, the report's structural-shadow
section consists of its heading, one bullet (rendered via the word
analyzer) for each distinct word among the FIRST TEN OCCURRENCES of
structural-shadow words, the `"... and N more"` note exactly when the
occurrence list has more than ten entries (with N = occurrences − 10),
and a blank line. -/
theorem c3_amended (P : Parser) (text : Str) (st : DocStats)
    (_h : analyze_document P text = some st)
    (hne : st.structural_shadows ≠ []) :
    ∃ bullets,
      mapMO (bulletFor P) (dedupFirst (st.structural_shadows.take 10)) = some bullets ∧
      structural_section P st =
        some (structuralHeader st :: bullets ++
          (if 10 < st.structural_shadows.length then [moreLine st] else []) ++ [[]]) := by
  have hm := mapMO_isSome (bulletFor P)
    (dedupFirst (st.structural_shadows.take 10)) (fun x _ => bulletFor_isSome P x)
  rcases hmm : mapMO (bulletFor P) (dedupFirst (st.structural_shadows.take 10)) with _ | bullets
  · rw [hmm] at hm; cases hm
  · have hemp : st.structural_shadows.isEmpty = false := by
      rcases hss : st.structural_shadows with _ | ⟨x, xs⟩
      · exact absurd hss hne
      · rfl
    exact ⟨bullets, rfl, by simp [structural_section, hemp, hmm]⟩

/-- C3 witness: the structural section of the two-word document
`"exp cat"` (one structural shadow) is its header, the `"exp"` bullet
and a blank line, with no note. -/
theorem c3_witness :
    ∃ bullets,
      mapMO (bulletFor defaultParser)
        (dedupFirst ((((analyze_document defaultParser ("exp cat".data)).get
          (analyze_document_isSome defaultParser
            ("exp cat".data))).structural_shadows).take 10)) = some bullets ∧
      structural_section defaultParser
          ((analyze_document defaultParser ("exp cat".data)).get
            (analyze_document_isSome defaultParser ("exp cat".data))) =
        some (structuralHeader ((analyze_document defaultParser ("exp cat".data)).get
            (analyze_document_isSome defaultParser ("exp cat".data))) :: bullets ++
          (if 10 < ((analyze_document defaultParser ("exp cat".data)).get
              (analyze_document_isSome defaultParser
                ("exp cat".data))).structural_shadows.length then
            [moreLine ((analyze_document defaultParser ("exp cat".data)).get
              (analyze_document_isSome defaultParser ("exp cat".data)))]
          else []) ++ [[]]) :=
  c3_amended defaultParser ("exp cat".data) _ (Option.some_get _).symm (by decide)


/-! ### Claim C5

The source's `is_greek_compound` tests each Greek suffix for substring
membership in the WHOLE word, while §4.4 asks for membership in the
remainder after the matched root.  The two conditions coincide on these
tables: the only way a suffix occurrence can overlap a matched root is
`OLOGY` starting at the last letter of an `O`-ending root, and then
`LOGY` (also a table suffix) occurs inside the remainder.  The two
`decide`-checked facts below enumerate exactly this. -/

theorem greek_overlap_fact :
    ∀ rp ∈ GREEK_ROOTS, ∀ sp ∈ GREEK_SUFFIXES, ∀ k ∈ List.range (rp.1.length + 1),
      k = 0 ∨ ¬(rp.1.drop (rp.1.length - k) = sp.1.take k) ∨
        ("LOGY".data <+: sp.1.drop k) := by decide

theorem greek_no_suffix_inside :
    ∀ rp ∈ GREEK_ROOTS, ∀ sp ∈ GREEK_SUFFIXES, ∀ k ∈ List.range (rp.1.length + 1),
      ¬(sp.1.length < k ∧ sp.1 <+: rp.1.drop (rp.1.length - k)) := by decide

theorem spec_imp_code {w : Str} (h : greek_spec w = true) :
    is_greek_compound w = true := by
  unfold greek_spec at h
  unfold is_greek_compound
  rw [List.any_eq_true] at h ⊢
  obtain ⟨rp, hrp, hc⟩ := h
  rw [Bool.and_eq_true, decide_eq_true_eq] at hc
  obtain ⟨hpre, hs⟩ := hc
  rw [List.any_eq_true] at hs
  obtain ⟨sp, hsp, hinf⟩ := hs
  rw [decide_eq_true_eq] at hinf
  refine ⟨rp, hrp, ?_⟩
  rw [Bool.and_eq_true, decide_eq_true_eq]
  refine ⟨hpre, ?_⟩
  rw [List.any_eq_true]
  refine ⟨sp, hsp, ?_⟩
  rw [decide_eq_true_eq]
  exact hinf.trans (List.drop_suffix _ _).isInfix

theorem code_imp_spec {w : Str} (h : is_greek_compound w = true) :
    greek_spec w = true := by
  unfold is_greek_compound at h
  unfold greek_spec
  rw [List.any_eq_true] at h ⊢
  obtain ⟨rp, hrp, hc⟩ := h
  rw [Bool.and_eq_true, decide_eq_true_eq] at hc
  obtain ⟨hpre, hs⟩ := hc
  rw [List.any_eq_true] at hs
  obtain ⟨sp, hsp, hinf⟩ := hs
  rw [decide_eq_true_eq] at hinf
  refine ⟨rp, hrp, ?_⟩
  rw [Bool.and_eq_true, decide_eq_true_eq]
  refine ⟨hpre, ?_⟩
  rw [List.any_eq_true]
  obtain ⟨a, b, hu⟩ := hinf
  by_cases hlen : rp.1.length ≤ a.length
  · refine ⟨sp, hsp, ?_⟩
    rw [decide_eq_true_eq]
    have hau : a <+: (w.map Char.toUpper) :=
      ⟨sp.1 ++ b, by rw [← List.append_assoc]; exact hu⟩
    have hra : rp.1 <+: a := List.prefix_of_prefix_length_le hpre hau hlen
    obtain ⟨a2, ha2⟩ := hra
    refine ⟨a2, b, ?_⟩
    have hu2 : w.map Char.toUpper = rp.1 ++ (a2 ++ sp.1 ++ b) := by
      rw [← hu, ← ha2]
      simp [List.append_assoc]
    rw [hu2, List.drop_left]
  · push_neg at hlen
    have hau : a <+: (w.map Char.toUpper) :=
      ⟨sp.1 ++ b, by rw [← List.append_assoc]; exact hu⟩
    have har : a <+: rp.1 := List.prefix_of_prefix_length_le hau hpre (le_of_lt hlen)
    obtain ⟨r2, hr2⟩ := har
    have hlr2 : a.length + r2.length = rp.1.length := by
      have h0 := congrArg List.length hr2
      simpa using h0
    have hk : r2.length ≤ rp.1.length := by omega
    have hkne : r2.length ≠ 0 := by omega
    obtain ⟨t, ht⟩ := hpre
    have hstep : a ++ (r2 ++ t) = a ++ (sp.1 ++ b) := by
      rw [← List.append_assoc, hr2, ht, ← hu, List.append_assoc]
    have hkey : r2 ++ t = sp.1 ++ b := List.append_cancel_left hstep
    have hdropr : rp.1.drop (rp.1.length - r2.length) = r2 := by
      rw [← hr2]
      have hlen2 : (a ++ r2).length - r2.length = a.length := by simp
      rw [hlen2, List.drop_left]
    by_cases hr2s : r2.length ≤ sp.1.length
    · have hr2pre : r2 <+: sp.1 ++ b := ⟨t, hkey⟩
      have hr2sp : r2 <+: sp.1 :=
        List.prefix_of_prefix_length_le hr2pre ( List.prefix_append sp.1 b) hr2s
      have htake : sp.1.take r2.length = r2 := ( List.prefix_iff_eq_take.mp hr2sp).symm
      have hfact := greek_overlap_fact rp hrp sp hsp r2.length
        (List.mem_range.mpr (by omega))
      rcases hfact with h0 | hne2 | hlogy
      · exact absurd h0 hkne
      · exact absurd (by rw [hdropr, htake]) hne2
      · refine ⟨("LOGY".data, "study".data), by decide, ?_⟩
        rw [decide_eq_true_eq]
        have ht' : (w.map Char.toUpper).drop rp.1.length = t := by
          rw [← ht, List.drop_left]
        have hsp1 : sp.1 = r2 ++ sp.1.drop r2.length := by
          conv_lhs => rw [← List.take_append_drop r2.length sp.1]
          rw [htake]
        have hstep2 : r2 ++ t = r2 ++ (sp.1.drop r2.length ++ b) := by
          rw [hkey]
          conv_lhs => rw [hsp1]
          rw [List.append_assoc]
        have htt : t = sp.1.drop r2.length ++ b := List.append_cancel_left hstep2
        rw [ht', htt]
        exact (hlogy.trans ( List.prefix_append _ b)).isInfix
    · push_neg at hr2s
      have hsp2 : sp.1 <+: r2 ++ t := by
        rw [hkey]
        exact List.prefix_append sp.1 b
      have hsp3 : sp.1 <+: r2 :=
        List.prefix_of_prefix_length_le hsp2 ( List.prefix_append r2 t) (le_of_lt hr2s)
      exact absurd ⟨hr2s, by rw [hdropr]; exact hsp3⟩
        (greek_no_suffix_inside rp hrp sp hsp r2.length (List.mem_range.mpr (by omega)))

theorem greek_code_eq_spec (w : Str) : is_greek_compound w = greek_spec w := by
  by_cases hc : is_greek_compound w = true
  · rw [hc, code_imp_spec hc]
  · rw [Bool.not_eq_true] at hc
    rw [hc]
    by_cases hs : greek_spec w = true
    · exact absurd (spec_imp_code hs) (by simp [hc])
    · rw [Bool.not_eq_true] at hs
      rw [hs]

/-- C5: the Greek-compound early-exit guard of `parse_word` agrees, on
every string, with the condition as the specification words it (the word
starts with some Greek root and some Greek suffix occurs as a substring
of the remainder after that root); whenever the guard holds, the early
exit returns the Greek rendering with `is_shadow = false`, polarity
`"Sovereign (Greek compound)"` and empty components, warnings and
alternatives, bypassing shadow detection and component extraction; and
in particular `"biology"` parses to `"BIO~LOGY"`. -/
theorem c5_greek_compound :
    (∀ w : Str, is_greek_compound w = greek_spec w) ∧
    (∀ (P : Parser) (w : Str), is_greek_compound (cleanOf w) = true →
      parse_word P w = some
        { original := strip w
          parsed := parse_greek (cleanOf w)
          polarity := "Sovereign (Greek compound)".data
          resonance := calculate_resonance (cleanOf w)
          is_shadow := false
          shadow_types := []
          components := []
          warnings := []
          alternatives := []
          tier := none
          field_context := none
          educational_note := some ("Greek compound with tilde flow".data) }) ∧
    ((parse_word defaultParser ("biology".data)).map GlyphAnalysis.parsed =
      some ("BIO~LOGY".data)) ∧
    ((parse_word defaultParser ("biology".data)).map GlyphAnalysis.is_shadow =
      some false) ∧
    ((parse_word defaultParser ("biology".data)).map GlyphAnalysis.polarity =
      some ("Sovereign (Greek compound)".data)) ∧
    (∀ (P : Parser) (w : Str) (a : GlyphAnalysis),
      is_greek_compound (cleanOf w) = false →
      parse_word P w = some a →
      a.polarity ≠ "Sovereign (Greek compound)".data) := by
  refine ⟨greek_code_eq_spec, ?_, by decide, by decide, by decide, ?_⟩
  · intro P w h
    simp [parse_word, h]
  · intro P w a hg ha
    unfold parse_word at ha
    simp only [hg, Bool.false_eq_true, if_false] at ha
    rcases hr : renderParsed P (cleanOf w) with _ | parsed
    · rw [hr] at ha; cases ha
    · rw [hr] at ha
      simp only [Option.map_some', Option.some.injEq] at ha
      subst ha
      show polarityOf (cleanOf w) ≠ _
      unfold polarityOf
      rcases hv : detect_vcc (cleanOf w) with _ | ⟨p, sep⟩
      · decide
      · dsimp only
        split <;> decide

/-- C5 witness: the early exit taken at the Greek compound `"biology"`. -/
theorem c5_witness :
    parse_word defaultParser ("biology".data) = some
      { original := strip ("biology".data)
        parsed := parse_greek (cleanOf ("biology".data))
        polarity := "Sovereign (Greek compound)".data
        resonance := calculate_resonance (cleanOf ("biology".data))
        is_shadow := false
        shadow_types := []
        components := []
        warnings := []
        alternatives := []
        tier := none
        field_context := none
        educational_note := some ("Greek compound with tilde flow".data) } :=
  c5_greek_compound.2.1 defaultParser ("biology".data) (by decide)


/-! ### Faithfulness of the fuel-based reduction loop -/

theorem digitsAuxF_fuel : ∀ (n f g : Nat), n ≤ f → n ≤ g →
    digitsAuxF f n = digitsAuxF g n := by
  intro n
  induction n using Nat.strong_induction_on with
  | _ n ih =>
    intro f g hf hg
    cases n with
    | zero => cases f <;> cases g <;> rfl
    | succ m =>
      cases f with
      | zero => omega
      | succ f2 =>
        cases g with
        | zero => omega
        | succ g2 =>
          simp only [digitsAuxF]
          congr 1
          have hlt : (m + 1) / 10 < m + 1 := Nat.div_lt_self (by omega) (by omega)
          exact ih ((m + 1) / 10) hlt f2 g2 (by omega) (by omega)

theorem digitSum_unfold (m : Nat) :
    digitSum (m + 1) = (m + 1) % 10 + digitSum ((m + 1) / 10) := by
  unfold digitSum
  simp only [digitsAuxF, List.sum_cons]
  congr 1
  apply congrArg List.sum
  exact digitsAuxF_fuel ((m + 1) / 10) m ((m + 1) / 10) (by omega) (le_refl _)

theorem digitSum_le : ∀ n : Nat, digitSum n ≤ n := by
  intro n
  induction n using Nat.strong_induction_on with
  | _ n ih =>
    cases n with
    | zero => exact Nat.le_refl 0
    | succ m =>
      rw [digitSum_unfold]
      have h1 := ih ((m + 1) / 10) (Nat.div_lt_self (by omega) (by omega))
      omega

theorem digitSum_lt (n : Nat) (h : 9 < n) : digitSum n < n := by
  cases n with
  | zero => omega
  | succ m =>
    rw [digitSum_unfold]
    have h1 := digitSum_le ((m + 1) / 10)
    omega

theorem reduceAux_fuel : ∀ (n f g : Nat), n ≤ f → n ≤ g →
    reduceAux f n = reduceAux g n := by
  intro n
  induction n using Nat.strong_induction_on with
  | _ n ih =>
    intro f g hf hg
    by_cases hcond : 9 < n ∧ isMaster n = false
    · cases f with
      | zero => omega
      | succ f2 =>
        cases g with
        | zero => omega
        | succ g2 =>
          simp only [reduceAux, if_pos hcond]
          have hlt : digitSum n < n := digitSum_lt n hcond.1
          exact ih (digitSum n) hlt f2 g2 (by omega) (by omega)
    · cases f with
      | zero =>
        cases g with
        | zero => rfl
        | succ g2 => simp only [reduceAux, if_neg hcond]
      | succ f2 =>
        cases g with
        | zero => simp only [reduceAux, if_neg hcond]
        | succ g2 => simp only [reduceAux, if_neg hcond]

/-- The defining equation of the source's `while` loop, recovered from
the fuel-based definition: fuel `n` always suffices because the digit
sum strictly decreases above `9`. -/
theorem reduceRes_eq (n : Nat) :
    reduceRes n = if 9 < n ∧ isMaster n = false then reduceRes (digitSum n) else n := by
  by_cases hcond : 9 < n ∧ isMaster n = false
  · rw [if_pos hcond]
    unfold reduceRes
    cases n with
    | zero => omega
    | succ m =>
      simp only [reduceAux, if_pos hcond]
      have hlt := digitSum_lt (m + 1) hcond.1
      exact reduceAux_fuel (digitSum (m + 1)) m (digitSum (m + 1)) (by omega) (le_refl _)
  · rw [if_neg hcond]
    unfold reduceRes
    cases n with
    | zero => rfl
    | succ m => simp only [reduceAux, if_neg hcond]

end CodexGlyph
